import Mathlib

/-!
# Verification of the `@repo/vault` markdown record store

A shallow embedding of the vault subsystem of this repository
(`packages/vault/src`): a schema-driven, file-backed record store in which
each record is one markdown file with a YAML-front-matter header plus a free
body.  The embedding follows the source drafts that the specification was
written from:

* `vault.ts` (plugin draft): `createTableMethods` — `get`, `list`, `create`
  (with schema defaults), `update`, `delete`, `count`, `exists`; and
  `createCoreVaultMethods.stats`.
* `vault-clean.ts`: `createTableMethods.list` with
  `where / orderBy / order / limit / offset` parameters.
* `vault-final.ts`: `defineVault` with the duplicate-mirror-name check.
* `utils.ts`: `getSQLiteTableName`, `generateRecordId`,
  `parseRecordFilename`, `isMarkdownFile`, `getRecordPath`.
* `plugin.ts`: the `^[a-z][a-z0-9_]*$` identifier validation.

Files on disk are modelled structurally as a parsed front-matter header (an
ordered association list of key/value pairs) plus a body string; the textual
layer (the `gray-matter` engine, an external dependency that is not part of
this repository) is modelled from the spec in the `Codec` section below as a
YAML-front-matter-style key/value block, and its round trip is proved there.
JavaScript runtime values appearing in record fields are modelled by `Value`
(strings, integers, booleans); `Date.now()` and the `Math.random()`-derived
suffix are oracle parameters threaded into the operations that consume them.
-/

namespace Vault

/-- A front-matter field value: the JS runtime values that the vault's record
headers carry (strings, numbers, booleans).  Numbers are modelled as
integers, which covers every value the claims touch. -/
inductive Value where
  | vStr (s : String)
  | vNum (n : Int)
  | vBool (b : Bool)
  deriving DecidableEq, Repr

/-- Field type vocabulary of `types.ts` (`FieldType`). -/
inductive FieldType where
  | fString | fNumber | fBoolean | fDate | fObject
  | fStringArr | fNumberArr | fBoolArr
  deriving DecidableEq, Repr

/-- `types.ts` `FieldDefinition`: `{ type, required?, default?, unique?,
references? }`. -/
structure FieldDefinition where
  ftype : FieldType
  required : Bool := false
  default : Option Value := none
  unique : Bool := false
  references : Option String := none
  deriving DecidableEq, Repr

/-- `types.ts` `SchemaDefinition`: an ordered mapping from field name to
`FieldDefinition` (JS object insertion order). -/
abbrev SchemaDefinition := List (String × FieldDefinition)

/-- An in-memory record as the flat JS object `{ ...fields, id, content }`:
the `id` and `content` keys are kept apart from the schema fields. -/
structure MarkdownRecord where
  id : String
  content : String
  fields : List (String × Value)
  deriving DecidableEq, Repr

/-- A persisted file, already split by the front-matter codec: the parsed
header (`data` of `matter(...)`) and the body (`content`). -/
structure MatterFile where
  header : List (String × Value)
  body : String
  deriving DecidableEq, Repr

/-- One file-system entry: directory path (as segments), file name, file. -/
structure FSEntry where
  dir : List String
  fname : String
  file : MatterFile
  deriving DecidableEq, Repr

/-- The file system: a list of entries in creation order. -/
abbrev FS := List FSEntry

/-- First-match association-list lookup (JS property access on the header
object / `Object.entries` order). -/
def lookupV (k : String) : List (String × Value) → Option Value
  | [] => none
  | (k', v) :: rest => if k' = k then some v else lookupV k rest

/-- `readFile`-side lookup: the first entry at `dir/fname`, if any
(`existsSync` is `isSome` of this). -/
def fsLookup : FS → List String → String → Option MatterFile
  | [], _, _ => none
  | e :: fs, dir, fname =>
    if e.dir = dir ∧ e.fname = fname then some e.file else fsLookup fs dir fname

/-- `writeFile`: replace the entry in place if the path exists, else append. -/
def fsWrite : FS → List String → String → MatterFile → FS
  | [], dir, fname, file => [⟨dir, fname, file⟩]
  | e :: fs, dir, fname, file =>
    if e.dir = dir ∧ e.fname = fname then ⟨dir, fname, file⟩ :: fs
    else e :: fsWrite fs dir fname file

/-- `unlink`: remove the entries at the path. -/
def fsErase : FS → List String → String → FS
  | [], _, _ => []
  | e :: fs, dir, fname =>
    if e.dir = dir ∧ e.fname = fname then fsErase fs dir fname
    else e :: fsErase fs dir fname

/-- `readdir`: the file names of the entries of a directory, in entry order. -/
def readdirModel (fs : FS) (dir : List String) : List String :=
  (fs.filter (fun e => e.dir == dir)).map (·.fname)

/-! ## `utils.ts` -/

/-- `utils.ts` `getSQLiteTableName`: `` `${pluginId}_${tableName}` ``. -/
def getSQLiteTableName (pluginId tableName : String) : String :=
  pluginId ++ "_" ++ tableName

/-- `utils.ts` `generateRecordId`:
`` `${sqliteTableName}_${timestamp}_${random}` ``.  `Date.now()` and the
`Math.random().toString(36).substring(2, 9)` suffix are oracle inputs. -/
def generateRecordId (sqliteTableName : String) (now : Nat) (rand : String) : String :=
  sqliteTableName ++ "_" ++ Nat.repr now ++ "_" ++ rand

/-- Remove the first occurrence of `pat` from `s` (JS
`String.prototype.replace` with a string pattern replaces only the first
occurrence). -/
def replaceFirst (pat : List Char) (s : List Char) : List Char :=
  match s with
  | [] => []
  | c :: rest =>
    if pat.isPrefixOf s ∧ pat ≠ [] then s.drop pat.length
    else c :: replaceFirst pat rest

/-- `utils.ts` `parseRecordFilename`: `filename.replace('.md', '')`. -/
def parseRecordFilename (filename : String) : String :=
  String.mk (replaceFirst ".md".data filename.data)

/-- `utils.ts` `isMarkdownFile`: `filename.endsWith('.md')`. -/
def isMarkdownFile (filename : String) : Bool :=
  ".md".data.isSuffixOf filename.data

/-- The table directory `{vaultRoot}/{pluginId}/{tableName}` as segments. -/
def tableDir (root pluginId tableName : String) : List String :=
  [root, pluginId, tableName]

/-- `utils.ts` `getRecordPath` file name component: `{recordId}.md` inside
`tableDir`. -/
def recordFileName (id : String) : String :=
  id ++ ".md"

/-! ## Table methods (`vault.ts` `createTableMethods`) -/

/-- `get`'s result shape `{ ...data, id, content: body }`: spreading the
parsed header and then overriding `id` (by the requested id) and `content`
(by the body) — so in the flat object the header's own `id`/`content`
entries are shadowed. -/
def recordFromFile (id : String) (mf : MatterFile) : MarkdownRecord :=
  { id := id
    content := mf.body
    fields := mf.header.filter (fun kv => !(kv.1 == "id") && !(kv.1 == "content")) }

/-- `createTableMethods.get`: `null` when the file does not exist, else the
decoded record with the requested id. -/
def getModel (fs : FS) (root pluginId tableName id : String) : Option MarkdownRecord :=
  (fsLookup fs (tableDir root pluginId tableName) (recordFileName id)).map
    (recordFromFile id)

/-- Flat-object property access `record[key]` used by `find`/`list`
filtering and sorting. -/
def recLookup (r : MarkdownRecord) (k : String) : Option Value :=
  if k = "id" then some (.vStr r.id)
  else if k = "content" then some (.vStr r.content)
  else lookupV k r.fields

/-- `createTableMethods.list` (parameterless core): read the directory,
keep `.md` files, `get` each by its parsed file name, drop the `null`s. -/
def tableRecords (fs : FS) (root pluginId tableName : String) : List MarkdownRecord :=
  ((readdirModel fs (tableDir root pluginId tableName)).filter isMarkdownFile).filterMap
    (fun f => getModel fs root pluginId tableName (parseRecordFilename f))

/-- Input to `create`/`update`: the caller's field map with the `content`
key destructured off (`const { content = …, ...frontMatter } = record`). -/
structure RecordInput where
  fields : List (String × Value)
  content : Option String := none
  deriving DecidableEq, Repr

/-- `create`'s default application: iterate the schema; keep the provided
value when present, else the declared default when present, else skip the
field. -/
def dataWithDefaults (schema : SchemaDefinition) (provided : List (String × Value)) :
    List (String × Value) :=
  schema.filterMap (fun fd =>
    match lookupV fd.1 provided with
    | some v => some (fd.1, v)
    | none =>
      match fd.2.default with
      | some d => some (fd.1, d)
      | none => none)

/-- `createTableMethods.create` (vault.ts plugin draft): mint the id, apply
schema defaults, write `matter.stringify(content, { ...dataWithDefaults,
id })`, and return `{ ...dataWithDefaults, id, content }`. -/
def createModel (schema : SchemaDefinition) (root pluginId tableName : String)
    (input : RecordInput) (now : Nat) (rand : String) (fs : FS) :
    MarkdownRecord × FS :=
  let id := generateRecordId (getSQLiteTableName pluginId tableName) now rand
  let content := input.content.getD ""
  let data := dataWithDefaults schema input.fields
  let file : MatterFile := ⟨data ++ [("id", .vStr id)], content⟩
  ({ id := id, content := content, fields := data },
   fsWrite fs (tableDir root pluginId tableName) (recordFileName id) file)

/-- JS object spread `{ ...base, ...upd }`: base keys keep their position
(updated values win), new keys are appended in their own order. -/
def mergeFields (base upd : List (String × Value)) : List (String × Value) :=
  base.map (fun kv => (kv.1, (lookupV kv.1 upd).getD kv.2)) ++
    upd.filter (fun kv => !(base.any (fun b => b.1 == kv.1)))

/-- `createTableMethods.update`: throw when `get` is `null`; otherwise
return the in-memory merge `{ ...existing, ...frontMatter, content }` but
persist only `matter.stringify(content, { ...frontMatter, id })` — the
partial update's fields plus `id`. -/
def updateModel (fs : FS) (root pluginId tableName id : String)
    (updates : RecordInput) : Except String MarkdownRecord × FS :=
  match getModel fs root pluginId tableName id with
  | none =>
    (.error ("Record " ++ id ++ " not found in " ++ getSQLiteTableName pluginId tableName),
     fs)
  | some existing =>
    let content := updates.content.getD existing.content
    let updated : MarkdownRecord :=
      { id := existing.id, content := content,
        fields := mergeFields existing.fields updates.fields }
    let file : MatterFile := ⟨updates.fields ++ [("id", .vStr id)], content⟩
    (.ok updated,
     fsWrite fs (tableDir root pluginId tableName) (recordFileName id) file)

/-- `createTableMethods.delete`: `false` when the file is absent, else
unlink and `true`.  It never throws. -/
def deleteModel (fs : FS) (root pluginId tableName id : String) : Bool × FS :=
  if (fsLookup fs (tableDir root pluginId tableName) (recordFileName id)).isSome then
    (true, fsErase fs (tableDir root pluginId tableName) (recordFileName id))
  else
    (false, fs)

/-- `createTableMethods.exists`: `existsSync` on the record path. -/
def existsModel (fs : FS) (root pluginId tableName id : String) : Bool :=
  (fsLookup fs (tableDir root pluginId tableName) (recordFileName id)).isSome

/-- `createTableMethods.count` (vault.ts): `(await this.list()).length`. -/
def countModel (fs : FS) (root pluginId tableName : String) : Nat :=
  (tableRecords fs root pluginId tableName).length

/-! ## `vault-clean.ts` `list` with query parameters -/

/-- The optional parameters of `vault-clean.ts` `list` (`whereEq` stands for
the source's `where`, a reserved word here). -/
structure ListParams where
  whereEq : Option (List (String × Value)) := none
  orderBy : Option String := none
  order : Option String := none
  limit : Option Nat := none
  offset : Option Nat := none
  deriving Repr

/-- One `where` conjunct: `record[key] === value`. -/
def whereMatches (w : List (String × Value)) (r : MarkdownRecord) : Bool :=
  w.all (fun kv => recLookup r kv.1 == some kv.2)

/-- The comparator's test `aVal > bVal` on flat-object values: JS `>` on two
numbers, two strings, or two booleans; `false` on anything else (including a
missing key). -/
def valGt (a b : Option Value) : Bool :=
  match a, b with
  | some (.vNum x), some (.vNum y) => y < x
  | some (.vStr x), some (.vStr y) => y < x
  | some (.vBool x), some (.vBool y) => x && !y
  | _, _ => false

/-- "`a` may stay before `b`" for the sort comparator
`(a, b) => aVal > bVal ? order : -order`. -/
def recLe (desc : Bool) (k : String) (a b : MarkdownRecord) : Bool :=
  if desc then valGt (recLookup a k) (recLookup b k)
  else !(valGt (recLookup a k) (recLookup b k))

/-- Stable insertion of one element into a sorted list. -/
def insertLe {α : Type} (le : α → α → Bool) (x : α) : List α → List α
  | [] => [x]
  | y :: ys => if le x y then x :: y :: ys else y :: insertLe le x ys

/-- Stable sort (models the engine's stable `Array.prototype.sort`). -/
def sortLe {α : Type} (le : α → α → Bool) : List α → List α
  | [] => []
  | x :: xs => insertLe le x (sortLe le xs)

/-- The `where` stage of `list` (skipped when the parameter is absent). -/
def filterStage (w : Option (List (String × Value))) (rs : List MarkdownRecord) :
    List MarkdownRecord :=
  match w with
  | none => rs
  | some w => rs.filter (whereMatches w)

/-- The `orderBy` stage of `list`: single-key sort, descending exactly when
`order === 'desc'`. -/
def sortStage (orderBy : Option String) (order : Option String)
    (rs : List MarkdownRecord) : List MarkdownRecord :=
  match orderBy with
  | none => rs
  | some k => sortLe (recLe (order == some "desc") k) rs

/-- `vault-clean.ts` `list(params)`: decode the directory, then
`if (params?.where) … if (params?.orderBy) … if (params?.offset) …
if (params?.limit) …` — note the two pagination guards are JS-truthy, so a
`0` is skipped. -/
def listCleanModel (fs : FS) (root pluginId tableName : String)
    (params : ListParams) : List MarkdownRecord :=
  let records := tableRecords fs root pluginId tableName
  let r1 := filterStage params.whereEq records
  let r2 := sortStage params.orderBy params.order r1
  let r3 := match params.offset with
    | none => r2
    | some o => if o = 0 then r2 else r2.drop o
  match params.limit with
  | none => r3
  | some l => if l = 0 then r3 else r3.take l

/-- The spec's reading of the pipeline (§4.3): filtering, sorting, then
`offset`, then `limit`, each applied whenever the parameter is given. -/
def listPerClaim (params : ListParams) (records : List MarkdownRecord) :
    List MarkdownRecord :=
  let r1 := filterStage params.whereEq records
  let r2 := sortStage params.orderBy params.order r1
  let r3 := match params.offset with
    | none => r2
    | some o => r2.drop o
  match params.limit with
  | none => r3
  | some l => r3.take l

/-! ## `createCoreVaultMethods.stats` (vault.ts) -/

/-- A plugin as `stats` consumes it: its id and its table names in
declaration order. -/
structure PluginTables where
  id : String
  tables : List String
  deriving Repr

/-- JS object assignment `obj[k] = v`: overwrite in place, else append. -/
def objSet (l : List (String × Nat)) (k : String) (v : Nat) : List (String × Nat) :=
  if l.any (fun kv => kv.1 == k) then
    l.map (fun kv => if kv.1 == k then (kv.1, v) else kv)
  else l ++ [(k, v)]

/-- The running state of `stats`' double loop. -/
structure StatsAcc where
  tableStats : List (String × Nat)
  totalRecords : Nat
  deriving DecidableEq, Repr

/-- The inner loop of `stats`: over one plugin's tables. -/
def statsTables (fs : FS) (root pluginId : String) :
    List String → StatsAcc → StatsAcc
  | [], acc => acc
  | t :: rest, acc =>
    let c := countModel fs root pluginId t
    statsTables fs root pluginId rest
      { tableStats := objSet acc.tableStats (pluginId ++ "." ++ t) c
        totalRecords := acc.totalRecords + c }

/-- The outer loop of `stats`: over the configured plugins. -/
def statsPlugins (fs : FS) (root : String) :
    List PluginTables → StatsAcc → StatsAcc
  | [], acc => acc
  | p :: rest, acc => statsPlugins fs root rest (statsTables fs root p.id p.tables acc)

/-- The result object of `stats()`. -/
structure StatsResult where
  plugins : Nat
  tables : Nat
  totalRecords : Nat
  tableStats : List (String × Nat)
  deriving DecidableEq, Repr

/-- `createCoreVaultMethods.stats`: per-table counts keyed
`` `${plugin.id}.${tableName}` `` plus the total. -/
def statsModel (cfg : List PluginTables) (fs : FS) (root : String) : StatsResult :=
  let acc := statsPlugins fs root cfg ⟨[], 0⟩
  { plugins := cfg.length
    tables := acc.tableStats.length
    totalRecords := acc.totalRecords
    tableStats := acc.tableStats }

/-- The `(mirror name, count)` pairs of a configuration, in loop order. -/
def statsEntries (cfg : List PluginTables) (fs : FS) (root : String) :
    List (String × Nat) :=
  cfg.flatMap (fun p => p.tables.map
    (fun t => (p.id ++ "." ++ t, countModel fs root p.id t)))

/-- The `pluginId.tableName` keys of a configuration. -/
def statsKeys (cfg : List PluginTables) : List String :=
  cfg.flatMap (fun p => p.tables.map (fun t => p.id ++ "." ++ t))

/-! ## `vault-final.ts` `defineVault` -/

/-- `plugin.ts` / `vault-final.ts` id validation: `^[a-z][a-z0-9_]*$`. -/
def isValidId (s : String) : Bool :=
  match s.data with
  | [] => false
  | c :: rest =>
    Char.isLower c && rest.all (fun d => Char.isLower d || Char.isDigit d || d == '_')

/-- An adapter as `vault-final.ts` consumes it: its id and the keys of its
`schemas` object. -/
structure AdapterTables where
  id : String
  tables : List String
  deriving Repr

/-- Directory-creation state during `defineVault`: the directories that
exist (`existsSync`/`mkdir`) and the `tableNames` set, in insertion order. -/
structure BuildState where
  dirs : List (List String)
  names : List String
  deriving DecidableEq, Repr

/-- `if (!existsSync(p)) mkdir(p)`. -/
def mkdirIfAbsent (st : BuildState) (p : List String) : BuildState :=
  if p ∈ st.dirs then st else { st with dirs := st.dirs ++ [p] }

/-- The per-adapter table loop of `vault-final.ts` `defineVault`: duplicate
check, `tableNames.add`, then `createTableMethods` (which creates the flat
table directory `{vaultRoot}/{fullTableName}`). -/
def buildTables (root aid : String) :
    List String → BuildState → Except String Unit × BuildState
  | [], st => (.ok (), st)
  | t :: rest, st =>
    let full := aid ++ "_" ++ t
    if full ∈ st.names then
      (.error ("Duplicate table name \"" ++ full ++
        "\". Table names must be unique across all adapters."), st)
    else
      buildTables root aid rest
        (mkdirIfAbsent { st with names := st.names ++ [full] } [root, full])

/-- The adapter loop of `vault-final.ts` `defineVault`: id-format check,
then the table loop. -/
def buildAdapters (root : String) :
    List AdapterTables → BuildState → Except String Unit × BuildState
  | [], st => (.ok (), st)
  | a :: rest, st =>
    if !(isValidId a.id) then
      (.error ("Invalid adapter ID \"" ++ a.id ++
        "\". Must start with lowercase letter and contain only lowercase letters, numbers, and underscores."),
       st)
    else
      match buildTables root a.id a.tables st with
      | (.error e, st') => (.error e, st')
      | (.ok _, st') => buildAdapters root rest st'

/-- `vault-final.ts` `defineVault` as it touches the disk and the
`tableNames` set: create the vault root directory first, then process the
adapters.  Thrown errors leave the directories already created in place. -/
def defineVaultFinalModel (root : String) (adapters : List AdapterTables)
    (st : BuildState) : Except String Unit × BuildState :=
  buildAdapters root adapters (mkdirIfAbsent st [root])

/-- The mirror (SQLite) table names an adapter list declares, in order. -/
def mirrorNames (adapters : List AdapterTables) : List String :=
  adapters.flatMap (fun a => a.tables.map (fun t => a.id ++ "_" ++ t))

/-! ## Shared concrete fixtures -/

/-- The `reddit.posts` schema fragment of the spec's Scenario A:
`{title: string required, score: number default 0}`. -/
def redditPostsMini : SchemaDefinition :=
  [("title", { ftype := .fString, required := true }),
   ("score", { ftype := .fNumber, default := some (.vNum 0) })]

/-- The store after Scenario A's `create({title:"hi"})` at time `100` with
random suffix `abc`. -/
def fsAfterCreate : FS :=
  (createModel redditPostsMini "vault" "reddit" "posts"
    ⟨[("title", .vStr "hi")], none⟩ 100 "abc" []).2

/-- The id minted by that `create`. -/
def postId : String := "reddit_posts_100_abc"

/-! ## File-system lemmas -/

/-- Looking a path up after erasing it finds nothing. -/
theorem fsLookup_fsErase (fs : FS) (dir : List String) (fname : String) :
    fsLookup (fsErase fs dir fname) dir fname = none := by
  induction fs with
  | nil => rfl
  | cons e fs ih =>
    by_cases h : e.dir = dir ∧ e.fname = fname
    · simpa [fsErase, h] using ih
    · simpa [fsErase, fsLookup, h] using ih

/-- Looking a path up right after writing it finds the written file. -/
theorem fsLookup_fsWrite_self (fs : FS) (dir : List String) (fname : String)
    (file : MatterFile) : fsLookup (fsWrite fs dir fname file) dir fname = some file := by
  induction fs with
  | nil => simp [fsWrite, fsLookup]
  | cons e fs ih =>
    by_cases h : e.dir = dir ∧ e.fname = fname
    · simp [fsWrite, fsLookup, h]
    · simpa [fsWrite, fsLookup, h] using ih

/-! ## Claim C7 — update on a missing id -/

/-- C7.  For every id with no record file, `update(id, partialFields)`
throws the not-found error and leaves the file system exactly as it was:
no file is created and none is modified (the throw happens before
`writeFile`). -/
theorem update_missing_id_errors_and_leaves_fs (fs : FS)
    (root pluginId tableName id : String) (updates : RecordInput)
    (h : fsLookup fs (tableDir root pluginId tableName) (recordFileName id) = none) :
    updateModel fs root pluginId tableName id updates =
      (.error ("Record " ++ id ++ " not found in " ++ getSQLiteTableName pluginId tableName),
       fs) := by
  simp [updateModel, getModel, h]

/-- Witness for C7 at a concrete empty store. -/
theorem update_missing_id_witness :
    updateModel [] "vault" "reddit" "posts" "nonexistent" ⟨[("score", .vNum 5)], none⟩ =
      (.error ("Record " ++ "nonexistent" ++ " not found in " ++
        getSQLiteTableName "reddit" "posts"), []) :=
  update_missing_id_errors_and_leaves_fs [] "vault" "reddit" "posts" "nonexistent"
    ⟨[("score", .vNum 5)], none⟩ (by decide)

/-! ## Claim C8 — delete is an existence test plus removal, and idempotent -/

/-- C8.  `delete(id)` returns `true` exactly when a record file for that id
existed (and it removes every entry at that path), and a second `delete` of
the same id always returns `false`; both calls are total, so neither
throws. -/
theorem delete_true_iff_existed_then_false (fs : FS)
    (root pluginId tableName id : String) :
    (deleteModel fs root pluginId tableName id).1 =
      (fsLookup fs (tableDir root pluginId tableName) (recordFileName id)).isSome ∧
    fsLookup (deleteModel fs root pluginId tableName id).2
      (tableDir root pluginId tableName) (recordFileName id) = none ∧
    (deleteModel (deleteModel fs root pluginId tableName id).2
      root pluginId tableName id).1 = false := by
  by_cases h : (fsLookup fs (tableDir root pluginId tableName) (recordFileName id)).isSome
  · refine ⟨by simp [deleteModel, h], ?_, ?_⟩
    · simp [deleteModel, h, fsLookup_fsErase]
    · simp [deleteModel, h, fsLookup_fsErase]
  · have h' : fsLookup fs (tableDir root pluginId tableName) (recordFileName id) = none :=
      Option.not_isSome_iff_eq_none.mp h
    refine ⟨by simp [deleteModel, h'], by simp [deleteModel, h'], by simp [deleteModel, h']⟩

/-! ## Claim C1 — update drops the fields it was not given -/

deriving instance DecidableEq for Except

/-- C1 (code bug).  After Scenario A's create, `update(id, {score: 5})`
returns the full in-memory merge (`title` still present), but the file it
writes holds only the update's fields plus `id`; the following `get(id)`
therefore returns a record with `score == 5` and no `title` at all —
contradicting both the claim and `update`'s own return value. -/
theorem update_persists_only_partial_fields :
    (updateModel fsAfterCreate "vault" "reddit" "posts" postId
        ⟨[("score", .vNum 5)], none⟩).1 =
      .ok { id := postId, content := "",
            fields := [("title", .vStr "hi"), ("score", .vNum 5)] } ∧
    getModel (updateModel fsAfterCreate "vault" "reddit" "posts" postId
        ⟨[("score", .vNum 5)], none⟩).2 "vault" "reddit" "posts" postId =
      some { id := postId, content := "", fields := [("score", .vNum 5)] } := by
  decide

/-! ## Claim C2 — create performs no required-field validation -/

/-- Association lookup over an append when the left part misses the key. -/
theorem lookupV_append_none {k : String} {a b : List (String × Value)}
    (h : lookupV k a = none) : lookupV k (a ++ b) = lookupV k b := by
  induction a with
  | nil => rfl
  | cons hd tl ih =>
    by_cases hk : hd.1 = k
    · simp [lookupV, hk] at h
    · simp only [lookupV, hk, if_neg] at h ⊢
      exact ih h

/-- A key outside the schema never appears in `dataWithDefaults`. -/
theorem lookupV_dataWithDefaults_not_mem {f : String} {schema : SchemaDefinition}
    {provided : List (String × Value)} (h : f ∉ schema.map Prod.fst) :
    lookupV f (dataWithDefaults schema provided) = none := by
  induction schema with
  | nil => rfl
  | cons hd tl ih =>
    simp only [List.map_cons, List.mem_cons, not_or] at h
    have hne : hd.1 ≠ f := fun hh => h.1 hh.symm
    cases hp : lookupV hd.1 provided with
    | some v => simpa [dataWithDefaults, List.filterMap_cons, hp, lookupV, hne] using ih h.2
    | none =>
      cases hd2 : hd.2.default with
      | some d => simpa [dataWithDefaults, List.filterMap_cons, hp, hd2, lookupV, hne] using ih h.2
      | none => simpa [dataWithDefaults, List.filterMap_cons, hp, hd2] using ih h.2

/-- A required field with no default that the caller omitted is silently
absent from `dataWithDefaults` (no error of any kind is raised). -/
theorem lookupV_dataWithDefaults_missing {f : String} {fd : FieldDefinition}
    {schema : SchemaDefinition} {provided : List (String × Value)}
    (hmem : (f, fd) ∈ schema) (hnd : (schema.map Prod.fst).Nodup)
    (hdef : fd.default = none) (hprov : lookupV f provided = none) :
    lookupV f (dataWithDefaults schema provided) = none := by
  induction schema with
  | nil => exact absurd hmem (List.not_mem_nil _)
  | cons hd tl ih =>
    simp only [List.map_cons, List.nodup_cons] at hnd
    rcases List.mem_cons.mp hmem with heq | hmem'
    · subst heq
      simp only [dataWithDefaults, List.filterMap_cons, hprov, hdef]
      exact lookupV_dataWithDefaults_not_mem hnd.1
    · have hne : hd.1 ≠ f := by
        intro hh
        exact hnd.1 (hh ▸ List.mem_map.mpr ⟨(f, fd), hmem', rfl⟩)
      cases hp : lookupV hd.1 provided with
      | some v =>
        simpa [dataWithDefaults, List.filterMap_cons, hp, lookupV, hne]
          using ih hmem' hnd.2
      | none =>
        cases hd2 : hd.2.default with
        | some d =>
          simpa [dataWithDefaults, List.filterMap_cons, hp, hd2, lookupV, hne]
            using ih hmem' hnd.2
        | none =>
          simpa [dataWithDefaults, List.filterMap_cons, hp, hd2]
            using ih hmem' hnd.2

/-- A schema whose two fields are both required with no default. -/
def twoRequired : SchemaDefinition :=
  [("a", { ftype := .fString, required := true }),
   ("b", { ftype := .fString, required := true })]

/-- C2 counterexample.  `create({})` against a schema with two required,
default-less fields does not fail at all: it returns a record (with both
fields simply absent) and writes the record file — there is no
ValidationError and no list of offending fields anywhere. -/
theorem create_missing_required_fields_succeeds :
    (createModel twoRequired "vault" "blog" "posts" ⟨[], none⟩ 1 "x" []).1 =
      { id := "blog_posts_1_x", content := "", fields := [] } ∧
    (createModel twoRequired "vault" "blog" "posts" ⟨[], none⟩ 1 "x" []).2 =
      [⟨tableDir "vault" "blog" "posts", "blog_posts_1_x.md",
        ⟨[("id", .vStr "blog_posts_1_x")], ""⟩⟩] := by
  decide

/-- C2 amended.  `create` performs no runtime required-field validation:
for any required field with no default that the input omits, `create`
still succeeds — the returned record lacks the field, and exactly one
record file is written whose header also lacks the field (required-ness is
only a compile-time type constraint in this code). -/
theorem create_skips_missing_required_and_writes (schema : SchemaDefinition)
    (root pluginId tableName : String) (input : RecordInput) (now : Nat)
    (rand : String) (fs : FS) (f : String) (fd : FieldDefinition)
    (hmem : (f, fd) ∈ schema) (hnd : (schema.map Prod.fst).Nodup)
    (hreq : fd.required = true) (hdef : fd.default = none)
    (hprov : lookupV f input.fields = none) (hid : f ≠ "id") :
    lookupV f (createModel schema root pluginId tableName input now rand fs).1.fields =
      none ∧
    fsLookup (createModel schema root pluginId tableName input now rand fs).2
        (tableDir root pluginId tableName)
        (recordFileName (generateRecordId (getSQLiteTableName pluginId tableName) now rand)) =
      some ⟨dataWithDefaults schema input.fields ++
              [("id", .vStr (generateRecordId (getSQLiteTableName pluginId tableName) now rand))],
            input.content.getD ""⟩ ∧
    lookupV f (dataWithDefaults schema input.fields ++
        [("id", .vStr (generateRecordId (getSQLiteTableName pluginId tableName) now rand))]) =
      none := by
  have habs := lookupV_dataWithDefaults_missing hmem hnd hdef hprov
  refine ⟨by simpa [createModel] using habs, ?_, ?_⟩
  · simpa [createModel] using
      fsLookup_fsWrite_self fs (tableDir root pluginId tableName)
        (recordFileName (generateRecordId (getSQLiteTableName pluginId tableName) now rand))
        ⟨dataWithDefaults schema input.fields ++
          [("id", .vStr (generateRecordId (getSQLiteTableName pluginId tableName) now rand))],
         input.content.getD ""⟩
  · rw [lookupV_append_none habs]
    simp only [lookupV]
    exact if_neg (fun hh => hid hh.symm)

/-- Witness for the amended C2 at the concrete two-required-field schema. -/
theorem create_skips_missing_required_witness :
    (("a", ({ ftype := .fString, required := true } : FieldDefinition)) ∈ twoRequired ∧
     (twoRequired.map Prod.fst).Nodup ∧
     lookupV "a" ([] : List (String × Value)) = none ∧ "a" ≠ "id") ∧
    lookupV "a"
      (createModel twoRequired "vault" "blog" "posts" ⟨[], none⟩ 1 "x" []).1.fields =
      none := by
  refine ⟨⟨by decide, by decide, by decide, by decide⟩, ?_⟩
  exact (create_skips_missing_required_and_writes twoRequired "vault" "blog" "posts"
    ⟨[], none⟩ 1 "x" [] "a" { ftype := .fString, required := true }
    (by decide) (by decide) (by decide) (by decide) (by decide) (by decide)).1

/-! ## Claim C5 — Scenario A: defaults and the record-id shape -/

/-- Characters allowed in the `Math.random().toString(36)` suffix:
lowercase base-36 digits. -/
def isAlnumLower (c : Char) : Bool := c.isLower || c.isDigit

/-- Decision procedure for the spec's id pattern
`{pre}_<digits>_<alnum>` with nonempty digit and suffix parts. -/
def recordIdMatches (pre id : String) : Bool :=
  ((pre.data ++ ['_']).isPrefixOf id.data) &&
    (let rest := id.data.drop (pre.data.length + 1)
     let ds := rest.takeWhile Char.isDigit
     let after := rest.drop ds.length
     !ds.isEmpty && (after.head? == some '_') &&
       (!after.tail.isEmpty && after.tail.all isAlnumLower))

/-- Decimal digit characters really are digits. -/
theorem digitChar_isDigit {m : Nat} (h : m < 10) : (Nat.digitChar m).isDigit = true := by
  interval_cases m <;> decide

/-- The accumulator-passing core of `Nat.repr` only prepends digit
characters (base 10). -/
theorem toDigitsCore_all_digits (f : Nat) :
    ∀ (n : Nat) (l : List Char), l.all Char.isDigit = true →
      (Nat.toDigitsCore 10 f n l).all Char.isDigit = true := by
  induction f with
  | zero => intro n l h; simpa [Nat.toDigitsCore] using h
  | succ f ih =>
    intro n l h
    have hd : (Nat.digitChar (n % 10)).isDigit = true :=
      digitChar_isDigit (Nat.mod_lt n (by decide))
    by_cases hdiv : n / 10 = 0
    · simpa [Nat.toDigitsCore, hdiv, List.all_cons, hd] using h
    · simp only [Nat.toDigitsCore, hdiv, if_neg, ite_false]
      exact ih (n / 10) (Nat.digitChar (n % 10) :: l) (by simp [List.all_cons, hd, h])

/-- With positive fuel, `toDigitsCore` strictly grows its accumulator. -/
theorem toDigitsCore_length_gt (f : Nat) :
    ∀ (n : Nat) (l : List Char), 0 < f →
      l.length < (Nat.toDigitsCore 10 f n l).length := by
  induction f with
  | zero => intro n l h; exact absurd h (by omega)
  | succ f ih =>
    intro n l _
    by_cases hdiv : n / 10 = 0
    · simp [Nat.toDigitsCore, hdiv]
    · simp only [Nat.toDigitsCore, hdiv, ite_false]
      cases f with
      | zero => simp [Nat.toDigitsCore]
      | succ f =>
        have := ih (n / 10) (Nat.digitChar (n % 10) :: l) (by omega)
        simp only [List.length_cons] at this
        omega

/-- `Nat.repr` produces a nonempty, all-digit character list. -/
theorem repr_data_digits (n : Nat) :
    (Nat.repr n).data.all Char.isDigit = true ∧ (Nat.repr n).data ≠ [] := by
  have hdata : (Nat.repr n).data = Nat.toDigitsCore 10 (n + 1) n [] := rfl
  constructor
  · rw [hdata]; exact toDigitsCore_all_digits (n + 1) n [] rfl
  · rw [hdata]
    have := toDigitsCore_length_gt (n + 1) n [] (by omega)
    intro hnil
    rw [hnil] at this
    simp at this

/-- Take-while over an all-satisfying block stops exactly at the first
failing element. -/
theorem takeWhile_all_append (p : Char → Bool) (l : List Char) (x : Char)
    (r : List Char) (hl : l.all p = true) (hx : p x = false) :
    (l ++ x :: r).takeWhile p = l := by
  induction l with
  | nil => simp [List.takeWhile_cons, hx]
  | cons c cs ih =>
    simp only [List.all_cons, Bool.and_eq_true] at hl
    simp [List.takeWhile_cons, hl.1, ih hl.2]

/-- C5.  Scenario A: against the `reddit.posts` schema fragment,
`create({title:"hi"})` returns a record whose `score` is the applied
default `0` and whose id is the nonempty string
`reddit_posts_{Date.now()}_{suffix}`, which matches
`reddit_posts_<digits>_<alnum>` whenever the random suffix is a nonempty
base-36 string (as `Math.random().toString(36).substring(2, 9)` yields for
every non-degenerate draw). -/
theorem create_scenario_a (now : Nat) (rand : String) (fs : FS)
    (hr1 : rand.data ≠ []) (hr2 : rand.data.all isAlnumLower = true) :
    lookupV "score"
      (createModel redditPostsMini "vault" "reddit" "posts"
        ⟨[("title", .vStr "hi")], none⟩ now rand fs).1.fields = some (.vNum 0) ∧
    (createModel redditPostsMini "vault" "reddit" "posts"
        ⟨[("title", .vStr "hi")], none⟩ now rand fs).1.id =
      "reddit_posts_" ++ Nat.repr now ++ "_" ++ rand ∧
    (createModel redditPostsMini "vault" "reddit" "posts"
        ⟨[("title", .vStr "hi")], none⟩ now rand fs).1.id ≠ "" ∧
    recordIdMatches "reddit_posts"
      (createModel redditPostsMini "vault" "reddit" "posts"
        ⟨[("title", .vStr "hi")], none⟩ now rand fs).1.id = true := by
  have hid : (createModel redditPostsMini "vault" "reddit" "posts"
      ⟨[("title", .vStr "hi")], none⟩ now rand fs).1.id =
      "reddit_posts_" ++ Nat.repr now ++ "_" ++ rand := by
    show generateRecordId (getSQLiteTableName "reddit" "posts") now rand = _
    unfold generateRecordId
    rw [show getSQLiteTableName "reddit" "posts" ++ "_" = "reddit_posts_" from by decide]
  have hdigits := repr_data_digits now
  have hsplit : ("reddit_posts_" ++ Nat.repr now ++ "_" ++ rand).data =
      (("reddit_posts" : String).data ++ ['_']) ++
        ((Nat.repr now).data ++ '_' :: rand.data) := by
    have h0 : ("reddit_posts_" ++ Nat.repr now ++ "_" ++ rand).data =
        (("reddit_posts_".data ++ (Nat.repr now).data) ++ ['_']) ++ rand.data := rfl
    rw [h0, show ("reddit_posts_" : String).data = ("reddit_posts" : String).data ++ ['_']
      from by decide]
    simp [List.append_assoc]
  refine ⟨by simp [createModel, dataWithDefaults, redditPostsMini, lookupV], hid, ?_, ?_⟩
  · rw [hid]
    intro hempty
    have hnil := congrArg String.data hempty
    rw [hsplit] at hnil
    have h2 := (List.append_eq_nil.mp hnil).2
    simp at h2
  · rw [hid]
    have h1 : ((("reddit_posts" : String).data ++ ['_']).isPrefixOf
        ("reddit_posts_" ++ Nat.repr now ++ "_" ++ rand).data) = true := by
      rw [hsplit]
      simp [List.isPrefixOf_iff_prefix]
    have h2 : ("reddit_posts_" ++ Nat.repr now ++ "_" ++ rand).data.drop
        (("reddit_posts" : String).data.length + 1) =
        (Nat.repr now).data ++ '_' :: rand.data := by
      rw [hsplit,
        show ("reddit_posts" : String).data.length + 1 =
          (("reddit_posts" : String).data ++ ['_']).length from by simp,
        List.drop_left]
    simp only [recordIdMatches, h1, h2, Bool.true_and]
    rw [takeWhile_all_append Char.isDigit (Nat.repr now).data '_' rand.data
      hdigits.1 (by decide)]
    rw [List.drop_left]
    simp [List.isEmpty_iff, hdigits.2, hr1, hr2]

/-- Witness for C5 at a concrete clock value and suffix. -/
theorem create_scenario_a_witness :
    (("abc123x" : String).data ≠ [] ∧
      ("abc123x" : String).data.all isAlnumLower = true) ∧
    recordIdMatches "reddit_posts"
      (createModel redditPostsMini "vault" "reddit" "posts"
        ⟨[("title", .vStr "hi")], none⟩ 1700000000000 "abc123x" []).1.id = true :=
  ⟨⟨by decide, by decide⟩,
   (create_scenario_a 1700000000000 "abc123x" [] (by decide) (by decide)).2.2.2⟩

/-! ## Claim C6 — the `list` pipeline and its JS-truthiness pagination -/

/-- The store after a second Scenario-A style create. -/
def fsTwoPosts : FS :=
  (createModel redditPostsMini "vault" "reddit" "posts"
    ⟨[("title", .vStr "second")], none⟩ 200 "zzz" fsAfterCreate).2

/-- C6 counterexample.  With `limit: 0` given, `list` skips truncation
(JS truthiness of `params?.limit`) and returns the whole table, while the
claim's pipeline — "then limit" applied whenever given — would return the
empty list. -/
theorem list_limit_zero_returns_all :
    listCleanModel fsAfterCreate "vault" "reddit" "posts" { limit := some 0 } =
      [{ id := postId, content := "",
         fields := [("title", .vStr "hi"), ("score", .vNum 0)] }] ∧
    listPerClaim { limit := some 0 }
      (tableRecords fsAfterCreate "vault" "reddit" "posts") = [] := by
  decide

/-- C6 amended.  For every table state and every parameter combination whose
`limit` is not the (JS-falsy, hence ignored) `0`, `list` equals the claimed
pipeline: decode the directory, filter on `where`, single-key sort on
`orderBy` (`desc` only when `order === 'desc'`), drop `offset`, then take
`limit`.  (`offset: 0` is likewise skipped by truthiness, but dropping zero
elements is unobservable.) -/
theorem list_pipeline_order (fs : FS) (root pluginId tableName : String)
    (params : ListParams) (hl : params.limit ≠ some 0) :
    listCleanModel fs root pluginId tableName params =
      listPerClaim params (tableRecords fs root pluginId tableName) := by
  rcases params with ⟨w, ob, ord, l, o⟩
  simp only [ne_eq, Option.some.injEq] at hl
  simp only [listCleanModel, listPerClaim]
  cases l with
  | none =>
    cases o with
    | none => rfl
    | some o =>
      by_cases ho : o = 0
      · subst ho; simp
      · simp [ho]
  | some l =>
    have hl0 : l ≠ 0 := fun hh => hl (by rw [hh])
    cases o with
    | none => simp [hl0]
    | some o =>
      by_cases ho : o = 0
      · subst ho; simp [hl0]
      · simp [ho, hl0]

/-- Witness for the amended C6: both offset and limit given and nonzero on
a two-record table. -/
theorem list_pipeline_order_witness :
    (({ limit := some 1, offset := some 1 } : ListParams).limit ≠ some 0) ∧
    listCleanModel fsTwoPosts "vault" "reddit" "posts"
        { limit := some 1, offset := some 1 } =
      listPerClaim { limit := some 1, offset := some 1 }
        (tableRecords fsTwoPosts "vault" "reddit" "posts") :=
  ⟨by decide,
   list_pipeline_order fsTwoPosts "vault" "reddit" "posts"
     { limit := some 1, offset := some 1 } (by decide)⟩

/-! ## Claim C4 — duplicate mirror names at vault construction -/

/-- `mkdirIfAbsent` never touches the `tableNames` set. -/
theorem mkdirIfAbsent_names (st : BuildState) (p : List String) :
    (mkdirIfAbsent st p).names = st.names := by
  unfold mkdirIfAbsent
  split <;> rfl

/-- When the table loop succeeds it has appended exactly this adapter's
mirror names, and the extended name list is duplicate-free. -/
theorem buildTables_ok_names (root aid : String) :
    ∀ (tables : List String) (st : BuildState), st.names.Nodup →
      (buildTables root aid tables st).1 = .ok () →
      (buildTables root aid tables st).2.names =
        st.names ++ tables.map (fun t => aid ++ "_" ++ t) ∧
      (st.names ++ tables.map (fun t => aid ++ "_" ++ t)).Nodup := by
  intro tables
  induction tables with
  | nil => intro st hst _; exact ⟨by simp [buildTables], by simpa using hst⟩
  | cons t rest ih =>
    intro st hst hok
    by_cases hmem : (aid ++ "_" ++ t) ∈ st.names
    · simp [buildTables, hmem] at hok
    · simp only [buildTables, hmem, if_neg, ite_false] at hok ⊢
      have hnames : (mkdirIfAbsent { st with names := st.names ++ [aid ++ "_" ++ t] }
          [root, aid ++ "_" ++ t]).names = st.names ++ [aid ++ "_" ++ t] :=
        mkdirIfAbsent_names _ _
      have hnd : (mkdirIfAbsent { st with names := st.names ++ [aid ++ "_" ++ t] }
          [root, aid ++ "_" ++ t]).names.Nodup := by
        rw [hnames]
        simp [List.nodup_append, hst, hmem]
      have := ih _ hnd hok
      rw [hnames] at this
      simpa [List.append_assoc] using this

/-- When this adapter's mirror names collide with the already-collected
ones (or among themselves), the table loop returns an error. -/
theorem buildTables_error_of_dup (root aid : String) :
    ∀ (tables : List String) (st : BuildState), st.names.Nodup →
      ¬ (st.names ++ tables.map (fun t => aid ++ "_" ++ t)).Nodup →
      (buildTables root aid tables st).1.isOk = false := by
  intro tables
  induction tables with
  | nil => intro st hst h; exact absurd (by simpa using hst) h
  | cons t rest ih =>
    intro st hst h
    by_cases hmem : (aid ++ "_" ++ t) ∈ st.names
    · simp only [buildTables, hmem, if_pos, ite_true]
      rfl
    · simp only [buildTables, hmem, if_neg, ite_false]
      have hnames : (mkdirIfAbsent { st with names := st.names ++ [aid ++ "_" ++ t] }
          [root, aid ++ "_" ++ t]).names = st.names ++ [aid ++ "_" ++ t] :=
        mkdirIfAbsent_names _ _
      have hnd : (mkdirIfAbsent { st with names := st.names ++ [aid ++ "_" ++ t] }
          [root, aid ++ "_" ++ t]).names.Nodup := by
        rw [hnames]
        simp [List.nodup_append, hst, hmem]
      apply ih _ hnd
      rw [hnames]
      simpa [List.append_assoc] using h

/-- When the declared mirror names collide with the collected ones, the
adapter loop returns an error. -/
theorem buildAdapters_error_of_dup (root : String) :
    ∀ (adapters : List AdapterTables) (st : BuildState), st.names.Nodup →
      ¬ (st.names ++ mirrorNames adapters).Nodup →
      (buildAdapters root adapters st).1.isOk = false := by
  intro adapters
  induction adapters with
  | nil => intro st hst h; exact absurd (by simpa [mirrorNames] using hst) h
  | cons a rest ih =>
    intro st hst h
    by_cases hvalid : isValidId a.id = true
    · simp only [buildAdapters, hvalid, Bool.not_true, Bool.false_eq_true, if_neg,
        ite_false]
      rcases hbt : buildTables root a.id a.tables st with ⟨res, st'⟩
      cases res with
      | error e => rfl
      | ok u =>
        cases u
        have hok : (buildTables root a.id a.tables st).1 = .ok () := by rw [hbt]
        have hspec := buildTables_ok_names root a.id a.tables st hst hok
        have hst' : st'.names = st.names ++ a.tables.map (fun t => a.id ++ "_" ++ t) := by
          rw [← hspec.1, hbt]
        show (buildAdapters root rest st').1.isOk = false
        apply ih st' (by rw [hst']; exact hspec.2)
        rw [hst']
        have : mirrorNames (a :: rest) =
            a.tables.map (fun t => a.id ++ "_" ++ t) ++ mirrorNames rest := by
          simp [mirrorNames]
        rw [this] at h
        simpa [List.append_assoc] using h
    · simp only [buildAdapters, hvalid, Bool.not_false, if_pos, ite_true,
        Bool.not_eq_true]
      rfl

/-- C4 counterexample.  Constructing a vault (vault-final draft) from two
adapters that both produce mirror name `blog_posts` does throw the
duplicate-name error — but only after the vault root directory and the
first adapter's `blog_posts` table directory have already been created, so
the failure is not "before any directory is created". -/
theorem duplicate_mirror_fails_after_mkdir :
    (defineVaultFinalModel "vault" [⟨"blog", ["posts"]⟩, ⟨"blog", ["posts"]⟩]
        ⟨[], []⟩).1 =
      .error "Duplicate table name \"blog_posts\". Table names must be unique across all adapters." ∧
    (defineVaultFinalModel "vault" [⟨"blog", ["posts"]⟩, ⟨"blog", ["posts"]⟩]
        ⟨[], []⟩).2.dirs = [["vault"], ["vault", "blog_posts"]] := by
  decide

/-- C4 amended.  Construction in the draft with the uniqueness check
(vault-final) does fail whenever the adapters' mirror names collide —
though not before directory creation (see the counterexample), and the
nested-vault drafts perform no such check at all. -/
theorem duplicate_mirror_names_error (root : String) (adapters : List AdapterTables)
    (dirs0 : List (List String)) (h : ¬ (mirrorNames adapters).Nodup) :
    (defineVaultFinalModel root adapters ⟨dirs0, []⟩).1.isOk = false := by
  unfold defineVaultFinalModel
  apply buildAdapters_error_of_dup root adapters (mkdirIfAbsent ⟨dirs0, []⟩ [root])
  · rw [mkdirIfAbsent_names]; exact List.nodup_nil
  · rw [mkdirIfAbsent_names]
    simpa using h

/-- Witness for the amended C4 at the duplicate `blog_posts` configuration. -/
theorem duplicate_mirror_names_error_witness :
    (¬ (mirrorNames [⟨"blog", ["posts"]⟩, ⟨"blog", ["posts"]⟩]).Nodup) ∧
    (defineVaultFinalModel "vault" [⟨"blog", ["posts"]⟩, ⟨"blog", ["posts"]⟩]
        ⟨[], []⟩).1.isOk = false :=
  ⟨by decide,
   duplicate_mirror_names_error "vault" [⟨"blog", ["posts"]⟩, ⟨"blog", ["posts"]⟩]
     [] (by decide)⟩

/-! ## Claim C9 — stats reports per-table counts and their sum -/

/-- Assigning a fresh key to a JS object appends it. -/
theorem objSet_fresh (l : List (String × Nat)) (k : String) (v : Nat)
    (h : k ∉ l.map Prod.fst) : objSet l k v = l ++ [(k, v)] := by
  unfold objSet
  rw [if_neg]
  intro hany
  rcases List.any_eq_true.mp hany with ⟨kv, hkv, hbeq⟩
  exact h (List.mem_map.mpr ⟨kv, hkv, by simpa using hbeq⟩)

/-- The inner `stats` loop appends this plugin's `(key, count)` pairs and
adds the counts, when the new keys are fresh. -/
theorem statsTables_spec (fs : FS) (root pluginId : String) :
    ∀ (tables : List String) (acc : StatsAcc),
      (acc.tableStats.map Prod.fst ++
        tables.map (fun t => pluginId ++ "." ++ t)).Nodup →
      statsTables fs root pluginId tables acc =
        ⟨acc.tableStats ++
          tables.map (fun t => (pluginId ++ "." ++ t, countModel fs root pluginId t)),
         acc.totalRecords +
          (tables.map (fun t => countModel fs root pluginId t)).sum⟩ := by
  intro tables
  induction tables with
  | nil => intro acc _; simp [statsTables]
  | cons t rest ih =>
    intro acc hnd
    have hfresh : (pluginId ++ "." ++ t) ∉ acc.tableStats.map Prod.fst := by
      intro hmem
      have : ¬ (acc.tableStats.map Prod.fst).Disjoint
          ((t :: rest).map (fun t => pluginId ++ "." ++ t)) := by
        intro hdisj
        exact hdisj hmem (by simp)
      exact this ((List.nodup_append.mp hnd).2.2)
    simp only [statsTables]
    rw [objSet_fresh _ _ _ hfresh]
    have hnd' : ((acc.tableStats ++ [(pluginId ++ "." ++ t, countModel fs root pluginId t)]).map
        Prod.fst ++ rest.map (fun t => pluginId ++ "." ++ t)).Nodup := by
      simp only [List.map_append, List.map_cons, List.map_nil]
      have : acc.tableStats.map Prod.fst ++ [pluginId ++ "." ++ t] ++
          rest.map (fun t => pluginId ++ "." ++ t) =
          acc.tableStats.map Prod.fst ++
            ((t :: rest).map (fun t => pluginId ++ "." ++ t)) := by
        simp [List.append_assoc]
      rw [this]
      exact hnd
    rw [ih _ hnd']
    simp [List.append_assoc]
    omega

/-- The outer `stats` loop appends every plugin's entries and adds all the
counts, when the composed keys are globally duplicate-free. -/
theorem statsPlugins_spec (fs : FS) (root : String) :
    ∀ (cfg : List PluginTables) (acc : StatsAcc),
      (acc.tableStats.map Prod.fst ++ statsKeys cfg).Nodup →
      statsPlugins fs root cfg acc =
        ⟨acc.tableStats ++ statsEntries cfg fs root,
         acc.totalRecords + ((statsEntries cfg fs root).map Prod.snd).sum⟩ := by
  intro cfg
  induction cfg with
  | nil => intro acc _; simp [statsPlugins, statsEntries]
  | cons p rest ih =>
    intro acc hnd
    have hkeys : statsKeys (p :: rest) =
        p.tables.map (fun t => p.id ++ "." ++ t) ++ statsKeys rest := by
      simp [statsKeys]
    rw [hkeys] at hnd
    have hnd1 : (acc.tableStats.map Prod.fst ++
        p.tables.map (fun t => p.id ++ "." ++ t)).Nodup := by
      have hsub : (acc.tableStats.map Prod.fst ++
          p.tables.map (fun t => p.id ++ "." ++ t)).Sublist
          (acc.tableStats.map Prod.fst ++
            (p.tables.map (fun t => p.id ++ "." ++ t) ++ statsKeys rest)) := by
        rw [← List.append_assoc]
        exact List.sublist_append_left _ _
      exact hnd.sublist hsub
    simp only [statsPlugins]
    rw [statsTables_spec fs root p.id p.tables acc hnd1]
    have hents : statsEntries (p :: rest) fs root =
        p.tables.map (fun t => (p.id ++ "." ++ t, countModel fs root p.id t)) ++
          statsEntries rest fs root := by
      simp [statsEntries]
    have hnd2 : ((acc.tableStats ++
        p.tables.map (fun t => (p.id ++ "." ++ t, countModel fs root p.id t))).map
          Prod.fst ++ statsKeys rest).Nodup := by
      simp only [List.map_append, List.map_map]
      rw [show (Prod.fst ∘ fun t =>
          (p.id ++ "." ++ t, countModel fs root p.id t)) =
          (fun t => p.id ++ "." ++ t) from rfl]
      simpa [List.append_assoc] using hnd
    rw [ih _ hnd2, hents]
    have hsnd : (Prod.snd ∘ fun t => (p.id ++ "." ++ t, countModel fs root p.id t)) =
        (fun t => countModel fs root p.id t) := rfl
    simp [List.append_assoc, List.map_append, List.map_map, hsnd]
    omega

/-- C9.  For every store and configuration whose composed
`pluginId.tableName` keys are pairwise distinct, `stats()` reports exactly
the per-table `count()` values keyed `pluginId.tableName` (in configuration
order) and a `totalRecords` equal to their sum. -/
theorem stats_counts_and_total (cfg : List PluginTables) (fs : FS) (root : String)
    (hnd : (statsKeys cfg).Nodup) :
    (statsModel cfg fs root).tableStats = statsEntries cfg fs root ∧
    (statsModel cfg fs root).totalRecords =
      ((statsEntries cfg fs root).map Prod.snd).sum := by
  have h := statsPlugins_spec fs root cfg ⟨[], 0⟩ (by simpa using hnd)
  constructor
  · show (statsPlugins fs root cfg ⟨[], 0⟩).tableStats = _
    rw [h]; simp
  · show (statsPlugins fs root cfg ⟨[], 0⟩).totalRecords = _
    rw [h]; simp

/-- A five-record store: three `reddit/posts` files and two
`reddit/comments` files (Scenario E). -/
def fsFiveRecords : FS :=
  [⟨["vault", "reddit", "posts"], "p1.md", ⟨[("title", .vStr "a")], ""⟩⟩,
   ⟨["vault", "reddit", "posts"], "p2.md", ⟨[("title", .vStr "b")], ""⟩⟩,
   ⟨["vault", "reddit", "posts"], "p3.md", ⟨[("title", .vStr "c")], ""⟩⟩,
   ⟨["vault", "reddit", "comments"], "c1.md", ⟨[("body", .vStr "x")], ""⟩⟩,
   ⟨["vault", "reddit", "comments"], "c2.md", ⟨[("body", .vStr "y")], ""⟩⟩]

/-- Witness for C9: Scenario E's `{reddit.posts: 3, reddit.comments: 2}`
with `totalRecords == 5`. -/
theorem stats_counts_and_total_witness :
    (statsKeys [⟨"reddit", ["posts", "comments"]⟩]).Nodup ∧
    ((statsModel [⟨"reddit", ["posts", "comments"]⟩] fsFiveRecords "vault").tableStats =
        statsEntries [⟨"reddit", ["posts", "comments"]⟩] fsFiveRecords "vault" ∧
      (statsModel [⟨"reddit", ["posts", "comments"]⟩] fsFiveRecords "vault").totalRecords =
        ((statsEntries [⟨"reddit", ["posts", "comments"]⟩] fsFiveRecords "vault").map
          Prod.snd).sum) ∧
    (statsModel [⟨"reddit", ["posts", "comments"]⟩] fsFiveRecords "vault").tableStats =
      [("reddit.posts", 3), ("reddit.comments", 2)] ∧
    (statsModel [⟨"reddit", ["posts", "comments"]⟩] fsFiveRecords "vault").totalRecords = 5 :=
  ⟨by decide,
   stats_counts_and_total [⟨"reddit", ["posts", "comments"]⟩] fsFiveRecords "vault"
     (by decide),
   by decide, by decide⟩

/-! ## Claim C10 — ids come from filenames, overriding the stored header -/

/-- The filename with its 3-character `.md` extension removed. -/
def stripMdSuffix (f : String) : String :=
  String.mk (f.data.take (f.data.length - 3))

/-- A filename is clean when it ends in `.md` and its only occurrence of
`.md` is that final extension — then `replace('.md','')` coincides with
stripping the extension. -/
def mdCleanName (f : String) : Bool :=
  isMarkdownFile f && (replaceFirst ".md".data f.data == f.data.take (f.data.length - 3))

/-- A store holding one markdown file whose name contains `.md` before the
extension as well, and whose header even records the extension-stripped
id. -/
def fsWeird : FS :=
  [⟨["vault", "p", "t"], "a.mdb.md", ⟨[("id", .vStr "a.mdb")], ""⟩⟩]

/-- C10 counterexample.  `parseRecordFilename` removes the FIRST occurrence
of `.md`, not the extension: for the stored file `a.mdb.md` it yields
`ab.md` rather than `a.mdb`, and `list()` then looks up the non-existent
path `ab.md.md` and silently returns no record for the file at all. -/
theorem list_id_not_extension_stripped :
    parseRecordFilename "a.mdb.md" = "ab.md" ∧
    stripMdSuffix "a.mdb.md" = "a.mdb" ∧
    ("ab.md" : String) ≠ "a.mdb" ∧
    tableRecords fsWeird "vault" "p" "t" = [] := by
  decide

/-- Two strings with identical character data are equal. -/
theorem string_eq_of_data_eq {s t : String} (h : s.data = t.data) : s = t := by
  cases s; cases t; exact congrArg String.mk h

/-- A name returned by `readdir` resolves under `fsLookup`. -/
theorem fsLookup_isSome_of_mem_readdir (fs : FS) (dir : List String) (f : String)
    (h : f ∈ readdirModel fs dir) : (fsLookup fs dir f).isSome = true := by
  induction fs with
  | nil => simp [readdirModel] at h
  | cons e fs ih =>
    by_cases hd : e.dir = dir
    · have hr : readdirModel (e :: fs) dir = e.fname :: readdirModel fs dir := by
        simp [readdirModel, List.filter_cons, hd]
      rw [hr] at h
      rcases List.mem_cons.mp h with heq | hmem
      · simp [fsLookup, hd, heq.symm]
      · by_cases hf : e.fname = f
        · simp [fsLookup, hd, hf]
        · simpa [fsLookup, hd, hf] using ih hmem
    · have hr : readdirModel (e :: fs) dir = readdirModel fs dir := by
        simp [readdirModel, List.filter_cons, hd]
      rw [hr] at h
      simpa [fsLookup, hd] using ih h

/-- For a clean filename, the parsed id re-extends to the same filename. -/
theorem recordFileName_parse_of_clean (f : String) (hclean : mdCleanName f = true) :
    recordFileName (parseRecordFilename f) = f ∧
    parseRecordFilename f = stripMdSuffix f := by
  have hc : isMarkdownFile f = true ∧
      replaceFirst ".md".data f.data = f.data.take (f.data.length - 3) := by
    simpa [mdCleanName] using hclean
  have hmd := hc.1
  have hrep := hc.2
  have hparse : parseRecordFilename f = stripMdSuffix f := by
    unfold parseRecordFilename stripMdSuffix
    rw [hrep]
  rcases List.isSuffixOf_iff_suffix.mp hmd with hsuf
  rcases hsuf with ⟨s, hs⟩
  have hlen : f.data.length - 3 = s.length := by
    rw [← hs]; simp
  have htake : f.data.take (f.data.length - 3) = s := by
    rw [hlen, ← hs, List.take_left]
  refine ⟨?_, hparse⟩
  apply string_eq_of_data_eq
  show (parseRecordFilename f).data ++ ".md".data = f.data
  rw [hparse]
  show f.data.take (f.data.length - 3) ++ ".md".data = f.data
  rw [htake, hs]

/-- Mapping clean directory entries through `get` yields exactly the
extension-stripped filenames as ids. -/
theorem tableRecords_ids_aux (fs : FS) (root pluginId tableName : String) :
    ∀ (l : List String),
      (∀ f ∈ l, f ∈ readdirModel fs (tableDir root pluginId tableName) ∧
        mdCleanName f = true) →
      ((l.filterMap (fun f =>
          getModel fs root pluginId tableName (parseRecordFilename f))).map (·.id) =
        l.map stripMdSuffix) := by
  intro l
  induction l with
  | nil => intro _; rfl
  | cons f rest ih =>
    intro h
    have hf := h f (by simp)
    have hclean := recordFileName_parse_of_clean f hf.2
    have hsome := fsLookup_isSome_of_mem_readdir fs _ f hf.1
    rcases Option.isSome_iff_exists.mp hsome with ⟨mf, hmf⟩
    have hget : getModel fs root pluginId tableName (parseRecordFilename f) =
        some (recordFromFile (parseRecordFilename f) mf) := by
      unfold getModel
      rw [hclean.1, hmf]
      rfl
    simp only [List.filterMap_cons, hget, List.map_cons]
    rw [ih (fun g hg => h g (by simp [hg]))]
    simp [recordFromFile, hclean.2]

/-- C10 amended.  `get({id})` always returns a record whose `id` is the
requested one — the filename-derived id shadows any `id` the header block
declares.  And whenever every name in the table directory is clean (its
only `.md` occurrence is the final extension), the ids `list()` returns are
exactly the extension-stripped filenames; for other names
`parseRecordFilename` removes the first `.md` occurrence instead, and the
file is skipped (see the counterexample). -/
theorem get_id_overrides_and_list_ids (fs : FS) (root pluginId tableName : String) :
    (∀ id r, getModel fs root pluginId tableName id = some r → r.id = id) ∧
    ((∀ f ∈ readdirModel fs (tableDir root pluginId tableName), mdCleanName f = true) →
      (tableRecords fs root pluginId tableName).map (·.id) =
        (readdirModel fs (tableDir root pluginId tableName)).map stripMdSuffix) := by
  constructor
  · intro id r h
    rcases Option.map_eq_some'.mp h with ⟨mf, _, hr⟩
    rw [← hr]
    rfl
  · intro hall
    unfold tableRecords
    have hfilter : (readdirModel fs (tableDir root pluginId tableName)).filter
        isMarkdownFile = readdirModel fs (tableDir root pluginId tableName) := by
      apply List.filter_eq_self.mpr
      intro f hf
      have h := hall f hf
      simp [mdCleanName] at h
      exact h.1
    rw [hfilter]
    exact tableRecords_ids_aux fs root pluginId tableName _
      (fun f hf => ⟨hf, hall f hf⟩)

/-- A store whose single record file declares a different id in its header
block. -/
def fsHeaderId : FS :=
  [⟨["vault", "p", "t"], "rec1.md", ⟨[("id", .vStr "other"), ("k", .vNum 7)], "b"⟩⟩]

/-- Witness for the amended C10: the header says `other`, yet both `get`
and `list` report the filename-derived id `rec1`. -/
theorem get_id_overrides_and_list_ids_witness :
    ({ id := "rec1", content := "b",
       fields := [("k", .vNum 7)] } : MarkdownRecord).id = "rec1" ∧
    (tableRecords fsHeaderId "vault" "p" "t").map (·.id) =
      (readdirModel fsHeaderId (tableDir "vault" "p" "t")).map stripMdSuffix :=
  ⟨(get_id_overrides_and_list_ids fsHeaderId "vault" "p" "t").1 "rec1"
      { id := "rec1", content := "b", fields := [("k", .vNum 7)] } (by decide),
   (get_id_overrides_and_list_ids fsHeaderId "vault" "p" "t").2 (by decide)⟩

/-! ## Claim C3 — record codec round trip

Modelled from the spec: the front-matter engine (`gray-matter` with its
YAML backend) is an external dependency that is not part of this
repository's sources; §4.2/§6 of the spec describe the persisted file as a
typed key/value header block between `---` delimiters followed by the free
body, with `decode (encode r) = r` for valid records.  The engine is
modelled here concretely at that level: one `key: value` line per header
entry (strings double-quoted with backslash escapes, integers in decimal,
booleans as `true`/`false`), and the body verbatim after the closing
delimiter line.  `encodeRecord`/`decodeRecord` then compose the engine
exactly as `create` and `get` do: the header is the field map plus `id`,
and decoding re-extracts `id` and `content` from the flat object. -/

/-- Escape one character for a double-quoted scalar. -/
def escapeChar (c : Char) : List Char :=
  if c = '\\' then ['\\', '\\']
  else if c = '"' then ['\\', '"']
  else if c = '\n' then ['\\', 'n']
  else [c]

/-- Escape a whole string body. -/
def escapeStr : List Char → List Char
  | [] => []
  | c :: rest => escapeChar c ++ escapeStr rest

/-- Invert one escape sequence. -/
def unescChar (c : Char) : Option Char :=
  if c = '\\' then some '\\'
  else if c = '"' then some '"'
  else if c = 'n' then some '\n'
  else none

/-- Parse the interior of a double-quoted scalar up to its closing quote
(which must end the line); the flag records a pending backslash. -/
def parseStrBodyAux : Bool → List Char → Option (List Char)
  | _, [] => none
  | true, d :: rest =>
    (unescChar d).bind (fun u => (parseStrBodyAux false rest).map (u :: ·))
  | false, c :: rest =>
    if c = '"' then (if rest.isEmpty then some [] else none)
    else if c = '\\' then parseStrBodyAux true rest
    else (parseStrBodyAux false rest).map (c :: ·)

/-- Parse the interior of a double-quoted scalar. -/
def parseStrBody (l : List Char) : Option (List Char) :=
  parseStrBodyAux false l

/-- One decimal digit character. -/
def digitCh : Nat → Char
  | 0 => '0' | 1 => '1' | 2 => '2' | 3 => '3' | 4 => '4'
  | 5 => '5' | 6 => '6' | 7 => '7' | 8 => '8' | _ => '9'

/-- Decimal digit characters of a natural number, most significant first. -/
def natDigits (n : Nat) : List Char :=
  if n < 10 then [digitCh n]
  else natDigits (n / 10) ++ [digitCh (n % 10)]
termination_by n
decreasing_by
  exact Nat.div_lt_self (by omega) (by decide)

/-- Numeric value of a digit character. -/
def digitVal (c : Char) : Nat := c.toNat - 48

/-- Read a decimal digit string (assumed pre-validated). -/
def parseNatDigits (l : List Char) : Nat :=
  l.foldl (fun a c => a * 10 + digitVal c) 0

/-- Decimal characters of an integer. -/
def intChars (i : Int) : List Char :=
  if i < 0 then '-' :: natDigits i.natAbs else natDigits i.natAbs

/-- Serialize one header value. -/
def encodeVal : Value → List Char
  | .vStr s => '"' :: (escapeStr s.data ++ ['"'])
  | .vNum i => intChars i
  | .vBool b => if b then "true".data else "false".data

/-- Parse one header value. -/
def decodeVal (l : List Char) : Option Value :=
  if l = "true".data then some (.vBool true)
  else if l = "false".data then some (.vBool false)
  else if l.head? = some '"' then
    (parseStrBody l.tail).map (fun cs => .vStr (String.mk cs))
  else if l.head? = some '-' then
    if l.tail ≠ [] ∧ l.tail.all Char.isDigit then
      some (.vNum (-(parseNatDigits l.tail : Int)))
    else none
  else if l ≠ [] ∧ l.all Char.isDigit then
    some (.vNum ((parseNatDigits l : Nat) : Int))
  else none

/-- One `key: value` header line. -/
def encodeHeaderLine (k : String) (v : Value) : List Char :=
  k.data ++ (':' :: ' ' :: encodeVal v)

/-- All header lines, each terminated by a newline. -/
def headerChars : List (String × Value) → List Char
  | [] => []
  | kv :: rest => encodeHeaderLine kv.1 kv.2 ++ ('\n' :: headerChars rest)

/-- The persisted file: `---`, the header lines, `---`, then the body
verbatim. -/
def encodeFile (header : List (String × Value)) (body : String) : List Char :=
  '-' :: '-' :: '-' :: '\n' ::
    (headerChars header ++ ('-' :: '-' :: '-' :: '\n' :: body.data))

/-- Parse one `key: value` header line. -/
def parseHeaderLine (line : List Char) : Option (String × Value) :=
  let k := line.takeWhile (fun c => c != ':')
  match line.drop k.length with
  | ':' :: ' ' :: v => (decodeVal v).map (fun val => (String.mk k, val))
  | _ => none

/-- Parse header lines until the closing `---`; fails on an unterminated
or unparsable header block. -/
def parseLines (l : List Char) : Option (List (String × Value) × List Char) :=
  let line := l.takeWhile (fun c => c != '\n')
  if hlen : line.length = l.length then none
  else if line = ['-', '-', '-'] then some ([], l.drop (line.length + 1))
  else
    match parseHeaderLine line with
    | none => none
    | some kv => (parseLines (l.drop (line.length + 1))).map (fun p => (kv :: p.1, p.2))
termination_by l.length
decreasing_by
  unfold_let line
  unfold_let line at hlen
  have h1 : (l.takeWhile (fun c => c != '\n')).length ≤ l.length :=
    (List.takeWhile_prefix _).length_le
  simp only [List.length_drop]
  omega

/-- The engine's parse entry point (`matter(content)` giving `data` and
`content`): the file must open with a `---` delimiter line. -/
def matterParse (s : String) : Option (List (String × Value) × String) :=
  match s.data with
  | '-' :: '-' :: '-' :: '\n' :: rest =>
    (parseLines rest).map (fun p => (p.1, String.mk p.2))
  | _ => none

/-- `encode` as `create`/`update` perform it:
`matter.stringify(content, { ...fields, id })`. -/
def encodeRecord (r : MarkdownRecord) : String :=
  String.mk (encodeFile (r.fields ++ [("id", .vStr r.id)]) r.content)

/-- `decode` as `get` performs it: parse, then rebuild the flat object
`{ ...data, id, content: body }` (here with `id` taken from the stored
header entry, as `create` wrote it). -/
def decodeRecord (s : String) : Option MarkdownRecord :=
  (matterParse s).bind (fun p =>
    match lookupV "id" p.1 with
    | some (.vStr i) =>
      some { id := i, content := p.2,
             fields := p.1.filter (fun kv => !(kv.1 == "id") && !(kv.1 == "content")) }
    | _ => none)

/-- Validity of a record's field keys per the spec's data-model invariants:
the reserved implicit names `id` and `content` do not appear, and keys are
plain (no newline, no colon) so they form one header line each. -/
def validFieldKey (k : String) : Prop :=
  k ≠ "id" ∧ k ≠ "content" ∧ '\n' ∉ k.data ∧ ':' ∉ k.data

instance (k : String) : Decidable (validFieldKey k) := by
  unfold validFieldKey
  infer_instance

/-! ### Value-level round trip -/

/-- One-step unfolding of the scalar parser on an unescaped cons cell. -/
theorem parseStrBodyAux_false_cons (c : Char) (rest : List Char) :
    parseStrBodyAux false (c :: rest) =
      if c = '"' then (if rest.isEmpty then some [] else none)
      else if c = '\\' then parseStrBodyAux true rest
      else (parseStrBodyAux false rest).map (c :: ·) := rfl

/-- Unescaping inverts escaping, through the closing quote. -/
theorem parseStrBody_escape (s : List Char) :
    parseStrBody (escapeStr s ++ ['"']) = some s := by
  unfold parseStrBody
  induction s with
  | nil => rfl
  | cons c cs ih =>
    by_cases h1 : c = '\\'
    · subst h1
      simp [escapeStr, escapeChar, parseStrBodyAux_false_cons, parseStrBodyAux,
        unescChar, ih]
    · by_cases h2 : c = '"'
      · subst h2
        simp [escapeStr, escapeChar, parseStrBodyAux_false_cons, parseStrBodyAux,
          unescChar, ih]
      · by_cases h3 : c = '\n'
        · subst h3
          simp [escapeStr, escapeChar, parseStrBodyAux_false_cons, parseStrBodyAux,
            unescChar, ih]
        · rw [show escapeStr (c :: cs) = escapeChar c ++ escapeStr cs from rfl,
            show escapeChar c = [c] from by simp [escapeChar, h1, h2, h3]]
          show parseStrBodyAux false (c :: (escapeStr cs ++ ['"'])) = some (c :: cs)
          rw [parseStrBodyAux_false_cons, if_neg h2, if_neg h1, ih]
          rfl

/-- Escaped strings contain no raw newline. -/
theorem newline_not_mem_escapeStr (s : List Char) : '\n' ∉ escapeStr s := by
  induction s with
  | nil => simp [escapeStr]
  | cons c cs ih =>
    simp only [escapeStr, List.mem_append, not_or]
    refine ⟨?_, ih⟩
    unfold escapeChar
    by_cases h1 : c = '\\'
    · simp [h1]
    · by_cases h2 : c = '"'
      · simp [h1, h2]
      · by_cases h3 : c = '\n'
        · simp [h1, h2, h3]
        · simp [h1, h2, h3]
          exact fun hh => h3 hh.symm

/-- Digit values invert digit characters below ten. -/
theorem digitVal_digitCh {d : Nat} (h : d < 10) : digitVal (digitCh d) = d := by
  interval_cases d <;> decide

/-- Digit characters below ten really are digits. -/
theorem digitCh_isDigit {d : Nat} (h : d < 10) : (digitCh d).isDigit = true := by
  interval_cases d <;> decide

/-- Reading back the decimal print of a natural number. -/
theorem parseNatDigits_natDigits (n : Nat) : parseNatDigits (natDigits n) = n := by
  induction n using Nat.strong_induction_on with
  | _ n ih =>
    by_cases h : n < 10
    · rw [natDigits]
      simp [h, parseNatDigits, digitVal_digitCh h]
    · rw [natDigits]
      simp only [h, if_neg, ite_false]
      unfold parseNatDigits
      rw [List.foldl_append]
      have hrec := ih (n / 10) (Nat.div_lt_self (by omega) (by decide))
      unfold parseNatDigits at hrec
      rw [hrec]
      simp [digitVal_digitCh (Nat.mod_lt n (by decide) : n % 10 < 10)]
      omega

/-- The decimal print consists of digit characters. -/
theorem natDigits_all_digits (n : Nat) : (natDigits n).all Char.isDigit = true := by
  induction n using Nat.strong_induction_on with
  | _ n ih =>
    by_cases h : n < 10
    · rw [natDigits]; simp [h, digitCh_isDigit h]
    · rw [natDigits]
      simp only [h, if_neg, ite_false, List.all_append, Bool.and_eq_true]
      exact ⟨ih (n / 10) (Nat.div_lt_self (by omega) (by decide)),
        by simp [digitCh_isDigit (Nat.mod_lt n (by decide) : n % 10 < 10)]⟩

/-- The decimal print is never empty. -/
theorem natDigits_ne_nil (n : Nat) : natDigits n ≠ [] := by
  rw [natDigits]
  by_cases h : n < 10
  · simp [h]
  · simp [h]

/-- Every character of an all-digit list differs from any non-digit. -/
theorem mem_all_digits_ne {l : List Char} {c : Char} (hall : l.all Char.isDigit = true)
    (hmem : c ∈ l) (hc : c.isDigit = false) : False := by
  rw [List.all_eq_true] at hall
  rw [hall c hmem] at hc
  exact Bool.true_eq_false.mp hc

/-- An all-digit nonempty list is rejected by every head test against a
non-digit character. -/
theorem head?_all_digits {l : List Char} {c : Char} (hall : l.all Char.isDigit = true)
    (hhead : l.head? = some c) : c.isDigit = true := by
  cases l with
  | nil => simp at hhead
  | cons a rest =>
    simp only [List.head?_cons, Option.some.injEq] at hhead
    subst hhead
    simpa using (List.all_eq_true.mp hall) a (by simp)

/-- Decoding inverts encoding at the level of a single header value. -/
theorem decodeVal_encodeVal (v : Value) : decodeVal (encodeVal v) = some v := by
  cases v with
  | vStr s =>
    have htrue : ('"' :: (escapeStr s.data ++ ['"'])) ≠ "true".data := by
      intro h
      have : ('"' :: (escapeStr s.data ++ ['"'])).head? = ("true".data).head? :=
        congrArg List.head? h
      simp at this
    have hfalse : ('"' :: (escapeStr s.data ++ ['"'])) ≠ "false".data := by
      intro h
      have : ('"' :: (escapeStr s.data ++ ['"'])).head? = ("false".data).head? :=
        congrArg List.head? h
      simp at this
    show decodeVal ('"' :: (escapeStr s.data ++ ['"'])) = some (.vStr s)
    unfold decodeVal
    rw [if_neg htrue, if_neg hfalse,
      if_pos (show ('"' :: (escapeStr s.data ++ ['"'])).head? = some '"' from rfl)]
    simp only [List.tail_cons]
    rw [parseStrBody_escape]
    rfl

  | vNum i =>
    by_cases hneg : i < 0
    · have henc : encodeVal (.vNum i) = '-' :: natDigits i.natAbs := by
        simp [encodeVal, intChars, hneg]
      have htrue : ('-' :: natDigits i.natAbs) ≠ "true".data := by
        intro h
        have : ('-' :: natDigits i.natAbs).head? = ("true".data).head? :=
          congrArg List.head? h
        simp at this
      have hfalse : ('-' :: natDigits i.natAbs) ≠ "false".data := by
        intro h
        have : ('-' :: natDigits i.natAbs).head? = ("false".data).head? :=
          congrArg List.head? h
        simp at this
      rw [henc]
      unfold decodeVal
      rw [if_neg htrue, if_neg hfalse,
        if_neg (show ¬ (('-' :: natDigits i.natAbs).head? = some '"') from by simp),
        if_pos (show ('-' :: natDigits i.natAbs).head? = some '-' from rfl)]
      simp only [List.tail_cons]
      rw [if_pos ⟨natDigits_ne_nil _, natDigits_all_digits _⟩]
      rw [parseNatDigits_natDigits]
      congr 1
      congr 1
      omega
    · have henc : encodeVal (.vNum i) = natDigits i.natAbs := by
        simp [encodeVal, intChars, hneg]
      have hall := natDigits_all_digits i.natAbs
      have hne := natDigits_ne_nil i.natAbs
      have htrue : natDigits i.natAbs ≠ "true".data := by
        intro h
        rw [h] at hall
        exact absurd hall (by decide)
      have hfalse : natDigits i.natAbs ≠ "false".data := by
        intro h
        rw [h] at hall
        exact absurd hall (by decide)
      have hq : ¬ ((natDigits i.natAbs).head? = some '"') := by
        intro h
        have := head?_all_digits hall h
        exact absurd this (by decide)
      have hm : ¬ ((natDigits i.natAbs).head? = some '-') := by
        intro h
        have := head?_all_digits hall h
        exact absurd this (by decide)
      rw [henc]
      unfold decodeVal
      rw [if_neg htrue, if_neg hfalse, if_neg hq, if_neg hm]
      rw [if_pos ⟨hne, hall⟩, parseNatDigits_natDigits]
      congr 1
      congr 1
      omega
  | vBool b => cases b <;> decide

/-! ### Header and file-level round trip -/

/-- Encoded values never contain a raw newline. -/
theorem newline_not_mem_encodeVal (v : Value) : '\n' ∉ encodeVal v := by
  cases v with
  | vStr s =>
    simp only [encodeVal, List.mem_cons, List.mem_append, List.mem_singleton, not_or]
    exact ⟨by decide, newline_not_mem_escapeStr s.data, by decide⟩
  | vNum i =>
    unfold encodeVal intChars
    by_cases hneg : i < 0
    · simp only [hneg, if_pos, ite_true, List.mem_cons, not_or]
      refine ⟨by decide, ?_⟩
      intro hmem
      exact mem_all_digits_ne (natDigits_all_digits i.natAbs) hmem (by decide)
    · simp only [hneg, if_neg, ite_false]
      intro hmem
      exact mem_all_digits_ne (natDigits_all_digits i.natAbs) hmem (by decide)
  | vBool b => cases b <;> decide

/-- Encoded header lines never contain a raw newline. -/
theorem newline_not_mem_encodeHeaderLine (k : String) (v : Value)
    (hk : '\n' ∉ k.data) : '\n' ∉ encodeHeaderLine k v := by
  simp only [encodeHeaderLine, List.mem_append, List.mem_cons, not_or]
  exact ⟨hk, by decide, by decide, newline_not_mem_encodeVal v⟩

/-- A list avoiding a character passes the whole-list `!=` test. -/
theorem all_ne_of_not_mem {x : Char} {l : List Char} (h : x ∉ l) :
    l.all (fun c => c != x) = true := by
  rw [List.all_eq_true]
  intro c hc
  simp only [bne_iff_ne, ne_eq]
  exact fun heq => h (heq ▸ hc)

/-- Dropping a block plus its separator lands on the remainder. -/
theorem drop_append_cons (l : List Char) (x : Char) (r : List Char) :
    (l ++ x :: r).drop (l.length + 1) = r := by
  have h : l ++ x :: r = (l ++ [x]) ++ r := by simp
  rw [h, show l.length + 1 = (l ++ [x]).length from by simp, List.drop_left]

/-- Parsing inverts the encoding of one header line (for a colon-free
key). -/
theorem parseHeaderLine_encodeHeaderLine (k : String) (v : Value)
    (hcolon : ':' ∉ k.data) :
    parseHeaderLine (encodeHeaderLine k v) = some (k, v) := by
  have htake : (k.data ++ (':' :: ' ' :: encodeVal v)).takeWhile (fun c => c != ':') =
      k.data :=
    takeWhile_all_append _ _ ':' _ (all_ne_of_not_mem hcolon) (by decide)
  have hdrop : (k.data ++ (':' :: ' ' :: encodeVal v)).drop k.data.length =
      ':' :: ' ' :: encodeVal v :=
    List.drop_left _ _
  simp only [parseHeaderLine, encodeHeaderLine, htake, hdrop]
  rw [decodeVal_encodeVal]
  rfl

/-- Parsing inverts the encoding of a whole header block, leaving the body
verbatim. -/
theorem parseLines_encode (body : String) :
    ∀ (header : List (String × Value)),
      (∀ kv ∈ header, '\n' ∉ (kv.1 : String).data ∧ ':' ∉ (kv.1 : String).data) →
      parseLines (headerChars header ++ ('-' :: '-' :: '-' :: '\n' :: body.data)) =
        some (header, body.data) := by
  intro header
  induction header with
  | nil =>
    intro _
    show parseLines ('-' :: '-' :: '-' :: '\n' :: body.data) = some ([], body.data)
    rw [parseLines]
    have htake : ('-' :: '-' :: '-' :: '\n' :: body.data).takeWhile
        (fun c => c != '\n') = ['-', '-', '-'] := by
      simp [List.takeWhile_cons]
    simp only [htake]
    rw [dif_neg (by simp)]
    simp
  | cons kv rest ih =>
    intro hvalid
    have hk := hvalid kv (by simp)
    have hnl : '\n' ∉ encodeHeaderLine kv.1 kv.2 :=
      newline_not_mem_encodeHeaderLine kv.1 kv.2 hk.1
    have hinput : headerChars (kv :: rest) ++ ('-' :: '-' :: '-' :: '\n' :: body.data) =
        encodeHeaderLine kv.1 kv.2 ++
          ('\n' :: (headerChars rest ++ ('-' :: '-' :: '-' :: '\n' :: body.data))) := by
      simp [headerChars, List.append_assoc]
    rw [hinput, parseLines]
    have htake : (encodeHeaderLine kv.1 kv.2 ++
        ('\n' :: (headerChars rest ++ ('-' :: '-' :: '-' :: '\n' :: body.data)))).takeWhile
          (fun c => c != '\n') = encodeHeaderLine kv.1 kv.2 :=
      takeWhile_all_append _ _ '\n' _ (all_ne_of_not_mem hnl) (by decide)
    simp only [htake]
    have hlen : ¬ ((encodeHeaderLine kv.1 kv.2).length =
        (encodeHeaderLine kv.1 kv.2 ++
          ('\n' :: (headerChars rest ++
            ('-' :: '-' :: '-' :: '\n' :: body.data)))).length) := by
      simp
    rw [dif_neg hlen]
    have hcolon : ':' ∈ encodeHeaderLine kv.1 kv.2 := by
      simp [encodeHeaderLine]
    have hnotdash : ¬ (encodeHeaderLine kv.1 kv.2 = ['-', '-', '-']) := by
      intro heq
      rw [heq] at hcolon
      exact absurd hcolon (by decide)
    rw [if_neg hnotdash, parseHeaderLine_encodeHeaderLine kv.1 kv.2 hk.2]
    rw [drop_append_cons]
    rw [ih (fun e he => hvalid e (by simp [he]))]
    rfl

/-- The engine's full round trip: parsing the stringified file recovers the
header entries (in order) and the body. -/
theorem matterParse_encodeFile (header : List (String × Value)) (body : String)
    (hvalid : ∀ kv ∈ header, '\n' ∉ (kv.1 : String).data ∧ ':' ∉ (kv.1 : String).data) :
    matterParse (String.mk (encodeFile header body)) = some (header, body) := by
  show matterParse (String.mk ('-' :: '-' :: '-' :: '\n' ::
    (headerChars header ++ ('-' :: '-' :: '-' :: '\n' :: body.data)))) = _
  unfold matterParse
  simp only []
  rw [parseLines_encode body header hvalid]
  rfl

/-- A lookup misses every entry whose key differs from the query. -/
theorem lookupV_eq_none_of_ne {k : String} {l : List (String × Value)}
    (h : ∀ kv ∈ l, kv.1 ≠ k) : lookupV k l = none := by
  induction l with
  | nil => rfl
  | cons kv rest ih =>
    simp only [lookupV]
    rw [if_neg (h kv (by simp))]
    exact ih (fun e he => h e (by simp [he]))

/-- C3.  Record codec round trip: for every record whose field keys avoid
the reserved implicit names `id`/`content` and are plain header keys (no
newline, no colon) — the spec's validity conditions on a schema — decoding
the encoded file yields the record back exactly, field order included
(hence also up to the claim's order-insensitive equality). -/
theorem decode_encode_roundtrip (r : MarkdownRecord)
    (h : ∀ kv ∈ r.fields, validFieldKey kv.1) :
    decodeRecord (encodeRecord r) = some r := by
  obtain ⟨rid, rcontent, rfields⟩ := r
  simp only at h
  unfold encodeRecord decodeRecord
  simp only []
  have hv : ∀ kv ∈ rfields ++ [(("id" : String), Value.vStr rid)],
      '\n' ∉ (kv.1 : String).data ∧ ':' ∉ (kv.1 : String).data := by
    intro kv hkv
    rcases List.mem_append.mp hkv with hmem | hmem
    · exact ⟨((h kv hmem).2).2.1, ((h kv hmem).2).2.2⟩
    · simp only [List.mem_singleton] at hmem
      subst hmem
      refine ⟨?_, ?_⟩
      · show '\n' ∉ ("id" : String).data
        decide
      · show ':' ∉ ("id" : String).data
        decide
  rw [matterParse_encodeFile (rfields ++ [(("id" : String), Value.vStr rid)]) rcontent hv]
  have hid : lookupV "id" (rfields ++ [(("id" : String), Value.vStr rid)]) =
      some (Value.vStr rid) := by
    rw [lookupV_append_none (lookupV_eq_none_of_ne (fun kv hkv => (h kv hkv).1))]
    simp [lookupV]
  simp only [Option.some_bind, hid]
  have hfilter : (rfields ++ [(("id" : String), Value.vStr rid)]).filter
      (fun kv => !(kv.1 == "id") && !(kv.1 == "content")) = rfields := by
    rw [List.filter_append]
    have h1 : rfields.filter (fun kv => !(kv.1 == "id") && !(kv.1 == "content")) =
        rfields := by
      apply List.filter_eq_self.mpr
      intro kv hkv
      have hkey := h kv hkv
      simp [hkey.1, hkey.2.1]
    have h2 : ([(("id" : String), Value.vStr rid)]).filter
        (fun kv => !(kv.1 == "id") && !(kv.1 == "content")) = [] := by simp
    rw [h1, h2, List.append_nil]
  rw [hfilter]

/-- A record with every value shape, a multi-line body, and characters that
need escaping. -/
def roundTripSample : MarkdownRecord :=
  { id := "reddit_posts_1700000000000_abc123x"
    content := "line one\nline two: with colon\n--- not a delimiter\n"
    fields := [("title", .vStr "say \"hi\"\nok\\done"),
               ("score", .vNum 42),
               ("delta", .vNum (-7)),
               ("is_video", .vBool false),
               ("is_ok", .vBool true),
               ("empty", .vStr "")] }

/-- Witness for C3 at a concrete record exercising every constructor. -/
theorem decode_encode_roundtrip_witness :
    (∀ kv ∈ roundTripSample.fields, validFieldKey kv.1) ∧
    decodeRecord (encodeRecord roundTripSample) = some roundTripSample :=
  ⟨by decide, decode_encode_roundtrip roundTripSample (by decide)⟩

end Vault
